import Mathlib

/-!
# Bananakyu — verification of the job-tracking core

Shallow embedding of the job-application tracker's domain logic:

* the `JobStatus` pipeline enumeration and job record shape
  (`src/components/kanban-board.tsx`, `src/server/db/schema.ts`);
* the kanban grouping `jobsByStatus` (`src/components/kanban-board.tsx`);
* the table sort `sortedJobs` and the sort-state toggle `handleSort`
  (the jobs-table component);
* the client status-change handler `handleStatusChange`
  (`src/app/(dashboards)/dashboard/page.tsx`);
* the mutation layer (`createJob` / `updateStatus`), which is not present in
  the repository source and is modelled from the specification.

JavaScript `Array.prototype.sort` is modelled by `List.mergeSort` with the
merge rule of the mainstream engines' stable sort (an element of the right run
is taken only when the comparator says it is strictly smaller than the current
element of the left run), i.e. `le a b := 0 ≤ compare b a`.
-/

set_option maxHeartbeats 1000000

namespace Bananakyu

/-- The closed pipeline enumeration, in the declaration order of
`STATUS_CONFIG` in `kanban-board.tsx` (the canonical presentation order). -/
inductive JobStatus where
  | APPLYING
  | APPLIED
  | FOR_INTERVIEW
  | INTERVIEWING
  | OFFER
  | NEGOTIATING
  | HIRED
  | ON_HOLD
  | REJECTED
  | NO_RESPONSE
  | WITHDRAW
deriving DecidableEq, Repr

/-- The TypeScript key string of a status (the `STATUS_CONFIG` object key,
which is also the persisted enum literal). -/
def statusKey : JobStatus → String
  | .APPLYING => "APPLYING"
  | .APPLIED => "APPLIED"
  | .FOR_INTERVIEW => "FOR_INTERVIEW"
  | .INTERVIEWING => "INTERVIEWING"
  | .OFFER => "OFFER"
  | .NEGOTIATING => "NEGOTIATING"
  | .HIRED => "HIRED"
  | .ON_HOLD => "ON_HOLD"
  | .REJECTED => "REJECTED"
  | .NO_RESPONSE => "NO_RESPONSE"
  | .WITHDRAW => "WITHDRAW"

/-- All eleven statuses in declaration order (`Object.keys(STATUS_CONFIG)`). -/
def allStatuses : List JobStatus :=
  [.APPLYING, .APPLIED, .FOR_INTERVIEW, .INTERVIEWING, .OFFER, .NEGOTIATING,
   .HIRED, .ON_HOLD, .REJECTED, .NO_RESPONSE, .WITHDRAW]

/-- The client-side `Job` record of `kanban-board.tsx` / the jobs table.
`createdAt : Int` models the `Date` by its millisecond instant
(`Date.prototype.getTime`). -/
structure Job where
  id : String
  company : String
  position : String
  status : JobStatus
  url : Option String := none
  salary : Option String := none
  note : Option String := none
  createdAt : Int := 0
deriving DecidableEq, Repr

/-! ## Kanban grouping (`jobsByStatus` in `kanban-board.tsx`)

The source initialises a `Record<JobStatus, Job[]>` literal with all eleven
keys mapped to empty arrays, then pushes each job onto the array at its
status key.  The record is embedded as an association list whose keys appear
in the literal's order. -/

/-- The initial `grouped` record literal: all eleven keys, each with `[]`. -/
def emptyGrouped : List (JobStatus × List Job) :=
  [(.APPLYING, []), (.APPLIED, []), (.FOR_INTERVIEW, []), (.INTERVIEWING, []),
   (.OFFER, []), (.NEGOTIATING, []), (.HIRED, []), (.ON_HOLD, []),
   (.REJECTED, []), (.NO_RESPONSE, []), (.WITHDRAW, [])]

/-- Append `j` to the bucket at its status key (`grouped[job.status].push(job)`),
leaving every other bucket unchanged. -/
def pushJob (g : List (JobStatus × List Job)) (j : Job) :
    List (JobStatus × List Job) :=
  g.map fun p => if p.1 = j.status then (p.1, p.2 ++ [j]) else p

/-- Fold the input collection over the initial record (`jobsByStatus`),
pushing each job into its status bucket (`jobs.forEach(...)`). -/
def jobsByStatus (jobs : List Job) : List (JobStatus × List Job) :=
  jobs.foldl pushJob emptyGrouped

/-- The bucket rendered for status `s` (`jobsByStatus[status]`). -/
def bucket (jobs : List Job) (s : JobStatus) : List Job :=
  ((jobsByStatus jobs).lookup s).getD []

theorem pushJob_map (f : JobStatus → List Job) (j : Job) :
    pushJob (allStatuses.map fun s => (s, f s)) j =
      allStatuses.map fun s =>
        (s, if s = j.status then f s ++ [j] else f s) := by
  simp only [pushJob, List.map_map]
  refine List.map_congr_left fun s _ => ?_
  by_cases h : s = j.status <;> simp [h]

theorem foldl_pushJob_map (jobs : List Job) :
    ∀ f : JobStatus → List Job,
      jobs.foldl pushJob (allStatuses.map fun s => (s, f s)) =
        allStatuses.map fun s =>
          (s, f s ++ jobs.filter fun j => j.status = s) := by
  induction jobs with
  | nil => intro f; simp
  | cons j tl ih =>
    intro f
    rw [List.foldl_cons, pushJob_map, ih]
    refine List.map_congr_left fun s _ => ?_
    by_cases h : s = j.status
    · simp [h, List.filter_cons, List.append_assoc]
    · have h' : ¬j.status = s := fun hh => h hh.symm
      simp [h, h', List.filter_cons]

/-- The grouped record is, bucket by bucket, the order-preserving filter of
the input by status. -/
theorem jobsByStatus_eq_filter (jobs : List Job) :
    jobsByStatus jobs =
      allStatuses.map fun s => (s, jobs.filter fun j => j.status = s) := by
  have h0 : emptyGrouped = allStatuses.map fun s => (s, ([] : List Job)) := rfl
  rw [jobsByStatus, h0, foldl_pushJob_map]
  simp

theorem bucket_eq_filter (jobs : List Job) (s : JobStatus) :
    bucket jobs s = jobs.filter fun j => j.status = s := by
  rw [bucket, jobsByStatus_eq_filter]
  cases s <;> rfl

theorem statusCount_one (x : JobStatus) :
    ((allStatuses.map fun s => if x = s then 1 else 0).sum : Nat) = 1 := by
  cases x <;> rfl

/-! ## Table sort (`sortedJobs` in the jobs-table component)

The table component keeps a `(sortField, sortDirection)` state and sorts a
copy of the input via `Array.prototype.sort` with a comparator that
* returns `1` when the first record's chosen field is falsy and `-1` when the
  second one's is (a JS string is falsy exactly when it is empty; a `Date`
  object is always truthy),
* compares `createdAt` by `getTime()` and every other field by `<`/`>` on
  `String(value).toLowerCase()`.

JS strings compare lexicographically; this is embedded as the lexicographic
order on the character list (`String.lt` coincides with it, cf.
`String.lt_iff_toList_lt`), with `toLowerCase` as a character-wise ASCII
lowering. -/

inductive SortField where
  | company
  | position
  | status
  | createdAt
deriving DecidableEq, Repr

inductive SortDirection where
  | asc
  | desc
deriving DecidableEq, Repr

/-- Character-wise model of `String.prototype.toLowerCase`. -/
def lowerStr (s : String) : String :=
  ⟨s.data.map Char.toLower⟩

/-- The chosen field `a[sortField]` rendered as a string (`String(aValue)`); `createdAt`
never reaches the string branch of the comparator, so its value here is
irrelevant. -/
def fieldStr : SortField → Job → String
  | .company, j => j.company
  | .position, j => j.position
  | .status, j => statusKey j.status
  | .createdAt, _ => ""

/-- The `!aValue` test of the comparator: a string field is falsy exactly
when it is empty; a `Date` is an object and never falsy. -/
def fieldFalsy : SortField → Job → Bool
  | .createdAt, _ => false
  | f, j => fieldStr f j == ""

/-- The `aValue < bValue` test after conversion: the instant for
`createdAt`, the lowercased string (lexicographically) otherwise. -/
def fieldLt : SortField → Job → Job → Bool
  | .createdAt, a, b => decide (a.createdAt < b.createdAt)
  | f, a, b => decide ((lowerStr (fieldStr f a)).data < (lowerStr (fieldStr f b)).data)

/-- The comparator passed to `sort`, line for line. -/
def jobCompare (f : SortField) (d : SortDirection) (a b : Job) : Int :=
  if fieldFalsy f a then 1
  else if fieldFalsy f b then -1
  else if fieldLt f a b then (match d with | .asc => -1 | .desc => 1)
  else if fieldLt f b a then (match d with | .asc => 1 | .desc => -1)
  else 0

/-- In the mainstream engines `Array.prototype.sort` is a stable merge sort:
an element of the right run is taken only when the comparator says it is
strictly below the current element of the left run, so `a` stays before `b`
exactly when `0 ≤ compare b a`. -/
def sortLe (f : SortField) (d : SortDirection) (a b : Job) : Bool :=
  decide (0 ≤ jobCompare f d b a)

/-- The table's `sortedJobs`: `[...jobs].sort(comparator)`. -/
def sortedJobs (f : SortField) (d : SortDirection) (jobs : List Job) : List Job :=
  jobs.mergeSort (sortLe f d)

theorem fieldLt_asymm (f : SortField) (a b : Job) :
    fieldLt f a b = true → fieldLt f b a = false := by
  cases f <;>
    · simp only [fieldLt, decide_eq_true_eq, decide_eq_false_iff_not]
      exact fun h => lt_asymm h

theorem not_fieldLt_trans (f : SortField) (a b c : Job) :
    fieldLt f a b = false → fieldLt f b c = false → fieldLt f a c = false := by
  cases f <;>
    · simp only [fieldLt, decide_eq_false_iff_not]
      exact fun h1 h2 => not_lt.mpr (le_trans (not_lt.mp h2) (not_lt.mp h1))

theorem sortLe_eq (f : SortField) (d : SortDirection) (a b : Job) :
    sortLe f d a b =
      if fieldFalsy f b then true
      else if fieldFalsy f a then false
      else match d with
        | .asc => !fieldLt f b a
        | .desc => fieldLt f b a || !fieldLt f a b := by
  rcases hb : fieldFalsy f b <;> rcases ha : fieldFalsy f a <;>
    rcases h1 : fieldLt f b a <;> rcases h2 : fieldLt f a b <;> cases d <;>
      simp [sortLe, jobCompare, hb, ha, h1, h2]

/-- Propositional reading of the merge order: `a` stays before `b` iff `b`'s
field is falsy, or both are truthy and `a`'s key is not strictly after
`b`'s in the chosen direction. -/
theorem sortLe_true_iff (f : SortField) (d : SortDirection) (a b : Job) :
    sortLe f d a b = true ↔
      (fieldFalsy f b = true ∨
        (fieldFalsy f a = false ∧ fieldFalsy f b = false ∧
          (match d with
            | .asc => fieldLt f b a = false
            | .desc => fieldLt f a b = false))) := by
  rw [sortLe_eq]
  rcases hb : fieldFalsy f b <;> rcases ha : fieldFalsy f a <;> cases d <;>
    simp [hb, ha]
  exact fun h => fieldLt_asymm f b a h

theorem sortLe_total (f : SortField) (d : SortDirection) (a b : Job) :
    (sortLe f d a b || sortLe f d b a) = true := by
  rw [Bool.or_eq_true, sortLe_true_iff, sortLe_true_iff]
  by_cases hb : fieldFalsy f b = true
  · exact Or.inl (Or.inl hb)
  by_cases ha : fieldFalsy f a = true
  · exact Or.inr (Or.inl ha)
  replace hb : fieldFalsy f b = false := by simpa using hb
  replace ha : fieldFalsy f a = false := by simpa using ha
  cases d
  · by_cases h1 : fieldLt f b a = true
    · exact Or.inr (Or.inr ⟨hb, ha, fieldLt_asymm f b a h1⟩)
    · exact Or.inl (Or.inr ⟨ha, hb, by simpa using h1⟩)
  · by_cases h2 : fieldLt f a b = true
    · exact Or.inr (Or.inr ⟨hb, ha, fieldLt_asymm f a b h2⟩)
    · exact Or.inl (Or.inr ⟨ha, hb, by simpa using h2⟩)

theorem sortLe_trans (f : SortField) (d : SortDirection) (a b c : Job) :
    sortLe f d a b = true → sortLe f d b c = true → sortLe f d a c = true := by
  rw [sortLe_true_iff, sortLe_true_iff, sortLe_true_iff]
  rintro h1 (hc | ⟨hb, hc, h2⟩)
  · exact Or.inl hc
  · rcases h1 with hb' | ⟨ha, hb', h1⟩
    · rw [hb] at hb'; exact absurd hb' (by simp)
    · refine Or.inr ⟨ha, hc, ?_⟩
      cases d
      · exact not_fieldLt_trans f c b a h2 h1
      · exact not_fieldLt_trans f a b c h1 h2

/-- A record with a falsy chosen field never precedes one with a truthy
chosen field in the merge order. -/
theorem sortLe_falsy (f : SortField) (d : SortDirection) (a b : Job) :
    sortLe f d a b = true → fieldFalsy f a = true → fieldFalsy f b = true := by
  rw [sortLe_true_iff]
  rintro (hb | ⟨ha, _, _⟩) hfa
  · exact hb
  · rw [hfa] at ha; exact absurd ha (by simp)

theorem sum_bucket_lengths (jobs : List Job) :
    ((allStatuses.map fun s =>
      (jobs.filter fun j => j.status = s).length).sum) = jobs.length := by
  induction jobs with
  | nil => rfl
  | cons j tl ih =>
    have hstep : ∀ s ∈ allStatuses,
        (((j :: tl).filter fun x => x.status = s).length) =
          (if j.status = s then 1 else 0) +
            ((tl.filter fun x => x.status = s).length) := by
      intro s _
      by_cases h : j.status = s <;> simp [List.filter_cons, h, Nat.add_comm]
    rw [List.map_congr_left hstep, List.sum_map_add, statusCount_one, ih,
      List.length_cons, Nat.add_comm]

/-! ## Sort-state toggle (`handleSort` in the jobs-table component) -/

/-- The `(sortField, sortDirection)` React state of the table. -/
structure SortState where
  sortField : SortField
  sortDirection : SortDirection
deriving DecidableEq, Repr

/-- Clicking a header fires `handleSort(field)`: the current field's header flips the
direction; clicking a different field selects it and resets to ascending. -/
def handleSort (st : SortState) (field : SortField) : SortState :=
  if st.sortField = field then
    { st with
      sortDirection := if st.sortDirection = .asc then .desc else .asc }
  else
    { sortField := field, sortDirection := .asc }

/-! ## Status changes

`JobCard` (and the table's row menu) renders one `Move to …` item per key of
`STATUS_CONFIG`, for every card, and fires `onStatusChange(job.id, status)`;
the dashboard's `handleStatusChange` maps the displayed collection, replacing
the status of the records whose id matches. -/

/-- The statuses offered by a card's dropdown: `Object.keys(STATUS_CONFIG)`,
independent of the card's current status. -/
def statusOptions (_j : Job) : List JobStatus :=
  allStatuses

/-- The spread `{ ...job, status: newStatus }`: the record with only its status
replaced. -/
def changeStatus (j : Job) (newStatus : JobStatus) : Job :=
  { j with status := newStatus }

/-- The dashboard's `handleStatusChange`: map over the displayed jobs,
substituting the new status on id match. -/
def handleStatusChange (jobs : List Job) (jobId : String) (newStatus : JobStatus) :
    List Job :=
  jobs.map fun job => if job.id = jobId then { job with status := newStatus } else job

/-! ## Mutation layer

The tRPC mutation layer (`createJob`, `updateStatus`) is not present in the
repository source — the dashboard still runs on a mock in-memory list — so it
is modelled from the specification (§4.4, §7), on the row shape and defaults
of the `jobs` table in `src/server/db/schema.ts`. -/

/-- A persisted row of the `jobs` table (`src/server/db/schema.ts`).
Timestamps are modelled by their instant. -/
structure JobRow where
  id : String
  userId : String
  company : String
  position : String
  status : JobStatus
  url : Option String := none
  salary : Option String := none
  jobDescription : Option String := none
  note : Option String := none
  createdAt : Int := 0
deriving DecidableEq, Repr

/-- The error kinds of §7 that the mutation layer can surface. -/
inductive MutationError where
  | ValidationError (message : String)
  | NotFound
  | StoreError (message : String)
deriving DecidableEq, Repr

/-- The optional fields accepted by Quick Add. -/
structure OptionalFields where
  url : Option String := none
  salary : Option String := none
  jobDescription : Option String := none
  note : Option String := none
deriving DecidableEq, Repr

/-- Modelled from the spec: the `createJob` mutation is absent from the
repository source (only the Drizzle `jobs` schema exists).  Per §4.4 it fails
with `ValidationError` when company or position is empty and otherwise
persists a row with the schema defaults `status = APPLYING` and
`createdAt = now`, returning the row with its generated id. -/
def createJob (ownerId company position : String) (opt : OptionalFields)
    (newId : String) (now : Int) : Except MutationError JobRow :=
  if company = "" then
    .error (.ValidationError "company is required")
  else if position = "" then
    .error (.ValidationError "position is required")
  else
    .ok
      { id := newId, userId := ownerId, company := company,
        position := position, status := .APPLYING, url := opt.url,
        salary := opt.salary, jobDescription := opt.jobDescription,
        note := opt.note, createdAt := now }

/-- The spread `{ ...row, status }` on a persisted row (the spec's `changeStatus`). -/
def changeStatusRow (r : JobRow) (newStatus : JobStatus) : JobRow :=
  { r with status := newStatus }

/-- Modelled from the spec: the `updateStatus` mutation is absent from the
repository source.  Per §4.4 it fails with `NotFound` when no record with
the identifier is owned by the requester, and otherwise applies
`changeStatus` and returns the updated record. -/
def updateStatus (store : List JobRow) (recordId : String)
    (newStatus : JobStatus) (requesterId : String) :
    Except MutationError JobRow :=
  match store.find? fun r => r.id == recordId && r.userId == requesterId with
  | none => .error .NotFound
  | some r => .ok (changeStatusRow r newStatus)

/-- Modelled from the spec: §7's atomicity — a mutation is a single store
write, so a failed `updateStatus` leaves the store untouched and a
successful one rewrites exactly the matched row. -/
def persistUpdateStatus (store : List JobRow) (recordId : String)
    (newStatus : JobStatus) (requesterId : String) : List JobRow :=
  match updateStatus store recordId newStatus requesterId with
  | .error _ => store
  | .ok _ =>
      store.map fun r =>
        if r.id == recordId && r.userId == requesterId then changeStatusRow r newStatus
        else r

/-! ## Sample records (from the dashboard's mock data) used as witnesses -/

def sampleJob1 : Job :=
  { id := "1", company := "Google", position := "Senior Software Engineer",
    status := .INTERVIEWING, salary := some "$150k - $200k",
    note := some "Phone screen scheduled for next week", createdAt := 100 }

def sampleJob2 : Job :=
  { id := "2", company := "Meta", position := "Frontend Developer",
    status := .APPLIED, salary := some "$140k - $180k", createdAt := 200 }

def sampleJobNoCompany : Job :=
  { id := "6", company := "", position := "Engineer", status := .APPLYING,
    createdAt := 300 }

def sampleRow : JobRow :=
  { id := "r1", userId := "u1", company := "Acme", position := "Engineer",
    status := .APPLYING, createdAt := 0 }

/-! ## The claims -/

/-- C1: Kanban grouping is a partition: for every input collection, the
lengths of the eleven buckets sum to the input length, and every input
record appears in its own status's bucket and in no other bucket. -/
theorem kanban_grouping_is_partition (jobs : List Job) :
    ((jobsByStatus jobs).map fun p => p.2.length).sum = jobs.length ∧
    ∀ j ∈ jobs, j ∈ bucket jobs j.status ∧
      ∀ s : JobStatus, j ∈ bucket jobs s → s = j.status := by
  constructor
  · rw [jobsByStatus_eq_filter, List.map_map]
    exact sum_bucket_lengths jobs
  · intro j hj
    constructor
    · rw [bucket_eq_filter]
      exact List.mem_filter.mpr ⟨hj, by simp⟩
    · intro s hs
      rw [bucket_eq_filter] at hs
      have h := (List.mem_filter.mp hs).2
      simp only [decide_eq_true_eq] at h
      exact h.symm

theorem kanban_grouping_is_partition_witness :
    sampleJob1 ∈ bucket [sampleJob1, sampleJob2] JobStatus.INTERVIEWING ∧
    ∀ s : JobStatus, sampleJob1 ∈ bucket [sampleJob1, sampleJob2] s →
      s = JobStatus.INTERVIEWING :=
  (kanban_grouping_is_partition [sampleJob1, sampleJob2]).2 sampleJob1
    (List.mem_cons_self sampleJob1 [sampleJob2])

/-- C2: the grouping's key list is exactly the eleven statuses in canonical
order (no key absent), and each bucket is the order-preserving selection of
the input records holding that status. -/
theorem kanban_buckets_complete_ordered (jobs : List Job) :
    (jobsByStatus jobs).map Prod.fst = allStatuses ∧
    ∀ s : JobStatus,
      bucket jobs s = jobs.filter (fun j => j.status = s) ∧
      (bucket jobs s).Sublist jobs := by
  constructor
  · rw [jobsByStatus_eq_filter, List.map_map]
    rfl
  · intro s
    refine ⟨bucket_eq_filter jobs s, ?_⟩
    rw [bucket_eq_filter jobs s]
    exact List.filter_sublist jobs

/-- C5: `changeStatus` is total — every status is offered by the card menu
and every change is accepted — and it only rewrites the status field;
`handleStatusChange` rewrites only the matching records of the collection. -/
theorem changeStatus_total_and_minimal (j : Job) (newStatus : JobStatus) :
    newStatus ∈ statusOptions j ∧
    (changeStatus j newStatus).status = newStatus ∧
    (changeStatus j newStatus).id = j.id ∧
    (changeStatus j newStatus).company = j.company ∧
    (changeStatus j newStatus).position = j.position ∧
    (changeStatus j newStatus).url = j.url ∧
    (changeStatus j newStatus).salary = j.salary ∧
    (changeStatus j newStatus).note = j.note ∧
    (changeStatus j newStatus).createdAt = j.createdAt ∧
    ∀ (jobs : List Job) (jobId : String),
      handleStatusChange jobs jobId newStatus =
        jobs.map (fun job => if job.id = jobId then changeStatus job newStatus else job) ∧
      ∀ (i : Nat) (hi : i < jobs.length)
        (hi2 : i < (handleStatusChange jobs jobId newStatus).length),
        (jobs.get ⟨i, hi⟩).id ≠ jobId →
        (handleStatusChange jobs jobId newStatus).get ⟨i, hi2⟩ = jobs.get ⟨i, hi⟩ := by
  refine ⟨?_, rfl, rfl, rfl, rfl, rfl, rfl, rfl, rfl, ?_⟩
  · cases newStatus <;> simp [statusOptions, allStatuses]
  · intro jobs jobId
    refine ⟨rfl, ?_⟩
    intro i hi hi2 hne
    simp only [List.get_eq_getElem] at hne ⊢
    simp [handleStatusChange, hne]

theorem changeStatus_total_and_minimal_witness :
    (handleStatusChange [sampleJob1, sampleJob2] "1" .OFFER).get
        ⟨1, by simp [handleStatusChange]⟩ = sampleJob2 :=
  ((changeStatus_total_and_minimal sampleJob2 .OFFER).2.2.2.2.2.2.2.2.2
      [sampleJob1, sampleJob2] "1").2 1 (by simp) (by simp [handleStatusChange])
    (by decide)

/-- C8: clicking the selected field's header flips the direction, clicking a
different field selects it with ascending direction, and toggling the same
field twice restores the original state. -/
theorem handleSort_toggle_reset (st : SortState) (f : SortField) :
    (st.sortField = f →
      handleSort st f =
        { st with
          sortDirection := if st.sortDirection = .asc then .desc else .asc }) ∧
    (st.sortField ≠ f →
      handleSort st f = { sortField := f, sortDirection := .asc }) ∧
    handleSort (handleSort st st.sortField) st.sortField = st := by
  obtain ⟨sf, sd⟩ := st
  refine ⟨fun h => ?_, fun h => ?_, ?_⟩
  · subst h; simp [handleSort]
  · simp [handleSort, h]
  · cases sd <;> simp [handleSort]

theorem handleSort_toggle_reset_witness :
    handleSort ⟨.createdAt, .desc⟩ .createdAt = ⟨.createdAt, .asc⟩ ∧
    handleSort (handleSort ⟨.createdAt, .desc⟩ .createdAt) .createdAt =
      ⟨.createdAt, .desc⟩ ∧
    handleSort ⟨.createdAt, .desc⟩ .company = ⟨.company, .asc⟩ :=
  ⟨(handleSort_toggle_reset ⟨.createdAt, .desc⟩ .createdAt).1 rfl,
   (handleSort_toggle_reset ⟨.createdAt, .desc⟩ .createdAt).2.2,
   (handleSort_toggle_reset ⟨.createdAt, .desc⟩ .company).2.1 (by decide)⟩

/-- C3: table sort is stable and idempotent: a sequence already ordered for
the comparator is returned unchanged, sorting twice equals sorting once, and
any correctly ordered pair of the input keeps its relative order. -/
theorem tableSort_stable_idempotent (f : SortField) (d : SortDirection)
    (jobs : List Job) :
    (List.Pairwise (fun a b => sortLe f d a b = true) jobs →
      sortedJobs f d jobs = jobs) ∧
    sortedJobs f d (sortedJobs f d jobs) = sortedJobs f d jobs ∧
    ∀ a b : Job, sortLe f d a b = true → [a, b].Sublist jobs →
      [a, b].Sublist (sortedJobs f d jobs) := by
  refine ⟨fun h => List.mergeSort_of_sorted h, ?_, fun a b hab hsub => ?_⟩
  · exact List.mergeSort_of_sorted
      (List.sorted_mergeSort (sortLe_trans f d) (sortLe_total f d) jobs)
  · exact List.pair_sublist_mergeSort (sortLe_trans f d) (sortLe_total f d)
      hab hsub

theorem tableSort_stable_idempotent_witness :
    sortedJobs .createdAt .asc [sampleJob1, sampleJob2] =
      [sampleJob1, sampleJob2] ∧
    [sampleJob1, sampleJob2].Sublist
      (sortedJobs .createdAt .asc [sampleJob1, sampleJob2]) :=
  ⟨(tableSort_stable_idempotent .createdAt .asc [sampleJob1, sampleJob2]).1
      (List.pairwise_pair.mpr (by decide)),
   (tableSort_stable_idempotent .createdAt .asc [sampleJob1, sampleJob2]).2.2
      sampleJob1 sampleJob2 (by decide) (List.Sublist.refl _)⟩

theorem cmp_branch_spec {α : Type} [LinearOrder α] (x y : α) :
    ((if x < y then (-1 : Int) else if y < x then 1 else 0) = 0 ↔ x = y) ∧
    ((if x < y then (-1 : Int) else if y < x then 1 else 0) < 0 ↔ x < y) ∧
    ((if x < y then (1 : Int) else if y < x then -1 else 0) = 0 ↔ x = y) ∧
    ((if x < y then (1 : Int) else if y < x then -1 else 0) < 0 ↔ y < x) := by
  rcases lt_trichotomy x y with h | h | h
  · simp [h, asymm h, ne_of_lt h]
  · simp [h, lt_irrefl]
  · simp [asymm h, h, (ne_of_lt h).symm]

theorem jobCompare_truthy (f : SortField) (d : SortDirection) (a b : Job)
    (ha : fieldFalsy f a = false) (hb : fieldFalsy f b = false) :
    jobCompare f d a b =
      if fieldLt f a b then (match d with | .asc => -1 | .desc => 1)
      else if fieldLt f b a then (match d with | .asc => 1 | .desc => -1)
      else 0 := by
  simp [jobCompare, ha, hb]

theorem fieldLt_str (f : SortField) (hf : f ≠ .createdAt) (a b : Job) :
    fieldLt f a b =
      decide ((lowerStr (fieldStr f a)).data < (lowerStr (fieldStr f b)).data) := by
  cases f
  · rfl
  · rfl
  · rfl
  · exact absurd rfl hf

/-- C4: the sort sends records whose chosen field is missing/falsy to the end
of the output for either direction; on records with present values the
comparator orders the string fields by their lowercased text (both
directions) and `createdAt` by its instant. -/
theorem tableSort_missing_last_keys (f : SortField) (d : SortDirection) :
    (∀ jobs : List Job,
      List.Pairwise (fun a b => fieldFalsy f a = true → fieldFalsy f b = true)
        (sortedJobs f d jobs)) ∧
    (∀ a b : Job, f ≠ .createdAt →
      fieldFalsy f a = false → fieldFalsy f b = false →
      ((jobCompare f d a b = 0 ↔
          lowerStr (fieldStr f a) = lowerStr (fieldStr f b)) ∧
       (jobCompare f .asc a b < 0 ↔
          (lowerStr (fieldStr f a)).data < (lowerStr (fieldStr f b)).data) ∧
       (jobCompare f .desc a b < 0 ↔
          (lowerStr (fieldStr f b)).data < (lowerStr (fieldStr f a)).data))) ∧
    (∀ a b : Job,
      (jobCompare .createdAt d a b = 0 ↔ a.createdAt = b.createdAt) ∧
      (jobCompare .createdAt .asc a b < 0 ↔ a.createdAt < b.createdAt) ∧
      (jobCompare .createdAt .desc a b < 0 ↔ b.createdAt < a.createdAt)) := by
  refine ⟨fun jobs => ?_, fun a b hf ha hb => ?_, fun a b => ?_⟩
  · exact (List.sorted_mergeSort (sortLe_trans f d) (sortLe_total f d)
      jobs).imp fun h hfa => sortLe_falsy f d _ _ h hfa
  · have hstr := fieldLt_str f hf
    rw [jobCompare_truthy f d a b ha hb, jobCompare_truthy f .asc a b ha hb,
      jobCompare_truthy f .desc a b ha hb, hstr a b, hstr b a]
    have h := cmp_branch_spec (lowerStr (fieldStr f a)).data
      (lowerStr (fieldStr f b)).data
    constructor
    · cases d
      · simpa [lowerStr, String.ext_iff, decide_eq_true_eq] using h.1
      · simpa [lowerStr, String.ext_iff, decide_eq_true_eq] using h.2.2.1
    constructor
    · simpa [decide_eq_true_eq] using h.2.1
    · simpa [decide_eq_true_eq] using h.2.2.2
  · have ha : fieldFalsy .createdAt a = false := rfl
    have hb : fieldFalsy .createdAt b = false := rfl
    rw [jobCompare_truthy _ d a b ha hb, jobCompare_truthy _ .asc a b ha hb,
      jobCompare_truthy _ .desc a b ha hb]
    have h := cmp_branch_spec a.createdAt b.createdAt
    constructor
    · cases d
      · simpa [fieldLt, decide_eq_true_eq] using h.1
      · simpa [fieldLt, decide_eq_true_eq] using h.2.2.1
    constructor
    · simpa [fieldLt, decide_eq_true_eq] using h.2.1
    · simpa [fieldLt, decide_eq_true_eq] using h.2.2.2

theorem tableSort_missing_last_keys_witness :
    (jobCompare .company .asc sampleJob1 sampleJob2 = 0 ↔
      lowerStr (fieldStr .company sampleJob1) =
        lowerStr (fieldStr .company sampleJob2)) ∧
    (jobCompare .company .asc sampleJob1 sampleJob2 < 0 ↔
      (lowerStr (fieldStr .company sampleJob1)).data <
        (lowerStr (fieldStr .company sampleJob2)).data) ∧
    (jobCompare .company .desc sampleJob1 sampleJob2 < 0 ↔
      (lowerStr (fieldStr .company sampleJob2)).data <
        (lowerStr (fieldStr .company sampleJob1)).data) :=
  (tableSort_missing_last_keys .company .asc).2.1 sampleJob1 sampleJob2
    (by decide) (by decide) (by decide)

/-- C10: in the table sort, a record whose chosen string field (company or
position) is the empty string counts as missing: the comparator sends it
after every record with a non-empty value for both directions, instead of
ranking it first as the least string. -/
theorem tableSort_empty_string_is_missing (f : SortField)
    (hf : f = .company ∨ f = .position) (d : SortDirection) :
    (∀ a b : Job, fieldStr f a = "" → fieldStr f b ≠ "" →
      jobCompare f d a b = 1 ∧ jobCompare f d b a = -1) ∧
    ∀ jobs : List Job,
      List.Pairwise (fun x y => fieldStr f x = "" → fieldStr f y = "")
        (sortedJobs f d jobs) := by
  have hfalsy : ∀ j : Job, fieldFalsy f j = (fieldStr f j == "") := by
    rcases hf with h | h <;> subst h <;> intro j <;> rfl
  constructor
  · intro a b hea hneb
    have ha : fieldFalsy f a = true := by rw [hfalsy]; simp [hea]
    have hb : fieldFalsy f b = false := by rw [hfalsy]; simp [hneb]
    constructor
    · simp [jobCompare, ha]
    · simp [jobCompare, hb, ha]
  · intro jobs
    refine (List.sorted_mergeSort (sortLe_trans f d) (sortLe_total f d)
      jobs).imp ?_
    intro x y h hx
    have hx2 : fieldFalsy f x = true := by rw [hfalsy]; simp [hx]
    have h2 := sortLe_falsy f d x y h hx2
    rw [hfalsy] at h2
    simpa using h2

theorem tableSort_empty_string_is_missing_witness :
    jobCompare .company .asc sampleJobNoCompany sampleJob1 = 1 ∧
    jobCompare .company .asc sampleJob1 sampleJobNoCompany = -1 :=
  (tableSort_empty_string_is_missing .company (Or.inl rfl) .asc).1
    sampleJobNoCompany sampleJob1 rfl (by decide)

/-- C6: `createJob` fails with `ValidationError` whenever company or
position is empty; otherwise it succeeds and the returned record holds the
schema defaults `status = APPLYING` and a `createdAt` set at creation
time. -/
theorem createJob_validates_and_defaults (ownerId company position : String)
    (opt : OptionalFields) (newId : String) (now : Int) :
    ((company = "" ∨ position = "") →
      ∃ msg, createJob ownerId company position opt newId now =
        .error (.ValidationError msg)) ∧
    (company ≠ "" → position ≠ "" →
      ∃ r : JobRow, createJob ownerId company position opt newId now = .ok r ∧
        r.status = .APPLYING ∧ r.createdAt = now ∧
        r.company = company ∧ r.position = position ∧
        r.userId = ownerId ∧ r.id = newId) := by
  constructor
  · intro h
    by_cases hc : company = ""
    · exact ⟨"company is required", by simp [createJob, hc]⟩
    · have hp : position = "" := h.resolve_left hc
      exact ⟨"position is required", by simp [createJob, hc, hp]⟩
  · intro hc hp
    refine ⟨{ id := newId, userId := ownerId, company := company,
              position := position, status := .APPLYING, url := opt.url,
              salary := opt.salary, jobDescription := opt.jobDescription,
              note := opt.note, createdAt := now },
      ?_, rfl, rfl, rfl, rfl, rfl, rfl⟩
    simp [createJob, hc, hp]

theorem createJob_validates_and_defaults_witness :
    (∃ msg, createJob "u1" "" "Engineer" {} "id1" 42 =
      .error (.ValidationError msg)) ∧
    ∃ r : JobRow, createJob "u1" "Acme" "Engineer" {} "id1" 42 = .ok r ∧
      r.status = .APPLYING ∧ r.createdAt = 42 ∧
      r.company = "Acme" ∧ r.position = "Engineer" ∧
      r.userId = "u1" ∧ r.id = "id1" :=
  ⟨(createJob_validates_and_defaults "u1" "" "Engineer" {} "id1" 42).1
      (Or.inl rfl),
   (createJob_validates_and_defaults "u1" "Acme" "Engineer" {} "id1" 42).2
      (by decide) (by decide)⟩

/-- C7: `updateStatus` fails with `NotFound` when no record with the given
identifier is owned by the requester (in particular when the record belongs
to another user), and otherwise returns the matched record updated to the
new status. -/
theorem updateStatus_owner_checked (store : List JobRow) (recordId : String)
    (newStatus : JobStatus) (requesterId : String) :
    ((∀ r ∈ store, ¬(r.id = recordId ∧ r.userId = requesterId)) →
      updateStatus store recordId newStatus requesterId = .error .NotFound) ∧
    ((∃ r ∈ store, r.id = recordId ∧ r.userId = requesterId) →
      ∃ r : JobRow, updateStatus store recordId newStatus requesterId = .ok r ∧
        r.status = newStatus ∧ r.id = recordId ∧ r.userId = requesterId) := by
  constructor
  · intro h
    have hnone :
        store.find? (fun r => r.id == recordId && r.userId == requesterId) =
          none := by
      rw [List.find?_eq_none]
      intro x hx
      simpa using h x hx
    simp [updateStatus, hnone]
  · rintro ⟨r, hr, hid, hu⟩
    cases hfind :
        store.find? (fun r => r.id == recordId && r.userId == requesterId) with
    | none =>
      rw [List.find?_eq_none] at hfind
      exact absurd (by simp [hid, hu]) (hfind r hr)
    | some r0 =>
      have hp := List.find?_some hfind
      simp only [Bool.and_eq_true, beq_iff_eq] at hp
      exact ⟨changeStatusRow r0 newStatus, by simp [updateStatus, hfind],
        rfl, hp.1, hp.2⟩

theorem updateStatus_owner_checked_witness :
    updateStatus [sampleRow] "r1" .OFFER "u2" = .error .NotFound ∧
    ∃ r : JobRow, updateStatus [sampleRow] "r1" .OFFER "u1" = .ok r ∧
      r.status = .OFFER ∧ r.id = "r1" ∧ r.userId = "u1" :=
  ⟨(updateStatus_owner_checked [sampleRow] "r1" .OFFER "u2").1 (by decide),
   (updateStatus_owner_checked [sampleRow] "r1" .OFFER "u1").2
      ⟨sampleRow, List.mem_cons_self sampleRow [], rfl, rfl⟩⟩

/-- C9: a failed or mistargeted status mutation leaves the displayed state
unchanged: the client handler is the identity when no displayed record has
the target id, it never adds or removes records, and a failed store
mutation leaves the store as it was. -/
theorem failed_mutation_leaves_state (jobs : List Job) (jobId : String)
    (newStatus : JobStatus) :
    ((∀ j ∈ jobs, j.id ≠ jobId) →
      handleStatusChange jobs jobId newStatus = jobs) ∧
    ((handleStatusChange jobs jobId newStatus).map (fun j => j.id) =
      jobs.map fun j => j.id) ∧
    ∀ (store : List JobRow) (recordId requesterId : String)
      (e : MutationError),
      updateStatus store recordId newStatus requesterId = .error e →
      persistUpdateStatus store recordId newStatus requesterId = store := by
  refine ⟨fun h => ?_, ?_, fun store recordId requesterId e he => ?_⟩
  · have : handleStatusChange jobs jobId newStatus = jobs.map fun j => j := by
      refine List.map_congr_left fun j hj => ?_
      simp [h j hj]
    simpa using this
  · rw [handleStatusChange, List.map_map]
    refine List.map_congr_left fun j _ => ?_
    by_cases h : j.id = jobId <;> simp [h]
  · simp [persistUpdateStatus, he]

theorem failed_mutation_leaves_state_witness :
    handleStatusChange [sampleJob1, sampleJob2] "999" .OFFER =
      [sampleJob1, sampleJob2] ∧
    persistUpdateStatus [sampleRow] "missing" .OFFER "u1" = [sampleRow] :=
  ⟨(failed_mutation_leaves_state [sampleJob1, sampleJob2] "999" .OFFER).1
      (by decide),
   (failed_mutation_leaves_state [] "ignored" .OFFER).2.2
      [sampleRow] "missing" "u1" .NotFound rfl⟩

end Bananakyu
